import Mathlib

/-!
Verification of the EPUB ingestion pipeline of collab-reader.

The definitions below are a shallow embedding of the TypeScript source:

  * `back/epub/metadata.ts` (the file shipped as `src/unnamed/part_015`):
    `findOpfPath`, `uploadCoverImage`, `extractMetadata`, `extractSpine`,
    `parseChapterData` and their helpers;
  * `back/epub/parser.ts` (the file shipped as `src/unnamed/part_016`):
    `parseChapters`, `parseAssets`.

Loosely-typed XML-parser output (fast-xml-parser with
ignoreAttributes: false, attributeNamePrefix: "", textNodeName: "_text",
trimValues: true) is modelled by the `JVal` type of JavaScript values:
undefined, string, array, object.  The XML parser itself is an external
library; functions that parse markup take an abstract
`xmlParse : String → Except JsErr JVal` argument, mirroring that
`XMLParser.parse` either returns a value or throws.  Thrown JS exceptions
are modelled with `Except JsErr`; `Uint8Array` file contents are modelled
by their decoded text (the pipeline only ever decodes them or passes them
through unchanged).
-/

/-- A JavaScript runtime value as produced by fast-xml-parser: `undefined`,
a string, an array, or a plain object (association list of fields).
`undef` also stands for JS `null` (the code never distinguishes them). -/
inductive JVal where
  | undef
  | str (s : String)
  | arr (elems : List JVal)
  | obj (fields : List (String × JVal))

/-- A thrown JavaScript exception. -/
inductive JsErr where
  | typeError (msg : String)
  | parseError (msg : String)

/-- JS truthiness: `undefined` and `""` are falsy; arrays and objects are
truthy.  (Numbers and booleans do not occur in the modelled fragment.) -/
def JVal.truthy : JVal → Bool
  | JVal.undef => false
  | .str s => !(s == "")
  | .arr _ => true
  | .obj _ => true

/-- JS property access `v[k]` on a non-`undefined` receiver: field lookup on
objects, `undefined` on strings and arrays (no named fields are ever read
from them in the modelled code) and on missing fields. -/
def JVal.get (v : JVal) (k : String) : JVal :=
  match v with
  | .obj fields => ((fields.find? (fun p => p.1 == k)).map (fun p => p.2)).getD JVal.undef
  | _ => JVal.undef

/-- JS property access `v[k]` including the exceptional case: reading a
property of `undefined` throws a TypeError. -/
def JVal.getE (v : JVal) (k : String) : Except JsErr JVal :=
  match v with
  | JVal.undef => .error (.typeError ("Cannot read properties of undefined (reading " ++ k ++ ")"))
  | _ => .ok (v.get k)

/-- JS `a || b`. -/
def jOr (a b : JVal) : JVal :=
  if a.truthy then a else b

/-- JS strict equality `===` restricted to the values compared in the
source (strings and `undefined`).  Comparing distinct objects or arrays is
reference equality; the parser always produces fresh objects, so `===` on
non-primitive operands is `false` in every reachable comparison. -/
def jsStrictEq : JVal → JVal → Bool
  | .str a, .str b => a == b
  | JVal.undef, JVal.undef => true
  | _, _ => false

/-- JS `Array.isArray(v) ? v : [v]`. -/
def toJsArray : JVal → List JVal
  | .arr l => l
  | v => [v]

/-- Stringification as performed by template literals and object-key
coercion: strings unchanged, `undefined` prints as "undefined", arrays
join their stringified elements with "," (with `undefined` elements
printing as empty), objects print as "[object Object]". -/
def jTemplate : JVal → String
  | .str s => s
  | JVal.undef => "undefined"
  | .obj _ => "[object Object]"
  | .arr l => String.intercalate "," (l.map fun v =>
      match v with
      | JVal.undef => ""
      | .str s => s
      | .obj _ => "[object Object]"
      | .arr _ => "[nested array]")

mutual
/-- Structural depth of a `JVal` tree, used as recursion fuel for the
cover-image search (the JS original recurses on the object structure). -/
def JVal.fuel : JVal → Nat
  | JVal.undef => 1
  | .str _ => 1
  | .arr l => 1 + JVal.fuelList l
  | .obj l => 1 + JVal.fuelFields l

def JVal.fuelList : List JVal → Nat
  | [] => 0
  | v :: vs => max (JVal.fuel v) (JVal.fuelList vs)

def JVal.fuelFields : List (String × JVal) → Nat
  | [] => 0
  | p :: ps => max (JVal.fuel p.2) (JVal.fuelFields ps)
end

/-! ## Character-level string operations

The word-count pipeline of `parseChapterData` is
`content.replace(/<[^>]+>/g, " ").replace(/\s+/g, " ").trim().split(" ")`
preceded by the body-isolating regex match
`/<body[^>]*>([\s\S]*?)<\/body>/is`.  These regexes are embedded as
character-list scanners below. -/

/-- The character class of the JS regex `\s` (which is also exactly the
set trimmed by `String.prototype.trim`). -/
def isWs (c : Char) : Bool :=
  [' ', '\t', '\n', '\r', '\x0b', '\x0c', '\u00A0',
   '\u1680', '\u2000', '\u2001', '\u2002', '\u2003', '\u2004', '\u2005',
   '\u2006', '\u2007', '\u2008', '\u2009', '\u200A', '\u2028', '\u2029',
   '\u202F', '\u205F', '\u3000', '\uFEFF'].contains c

/-- `s.replace(/\s+/g, " ")`: every maximal run of whitespace becomes a
single space.  (A run contributes its single `' '` at its last
character.) -/
def collapseWs : List Char → List Char
  | [] => []
  | c :: cs =>
    if isWs c then
      match cs with
      | [] => [' ']
      | d :: _ => if isWs d then collapseWs cs else ' ' :: collapseWs cs
    else c :: collapseWs cs

/-- Remove trailing whitespace. -/
def dropTrailingWs : List Char → List Char
  | [] => []
  | c :: cs =>
    match dropTrailingWs cs with
    | [] => if isWs c then [] else [c]
    | r => c :: r

/-- `s.trim()`. -/
def jsTrim (l : List Char) : List Char :=
  dropTrailingWs (l.dropWhile isWs)

/-- `s.split(sep)` for a single-character separator: the chunks between
separator occurrences, empty chunks included (`"".split(sep)` is `[""]`). -/
def splitOnChar (sep : Char) : List Char → List (List Char)
  | [] => [[]]
  | c :: cs =>
    if c = sep then [] :: splitOnChar sep cs
    else
      match splitOnChar sep cs with
      | t :: ts => (c :: t) :: ts
      | [] => [[c]]

/-- `s.split(" ")`. -/
def splitOnSpace : List Char → List (List Char) :=
  splitOnChar ' '

/-- The maximal runs of non-whitespace characters of a string: the
declarative notion of its words, used to characterise the split-based
pipeline. -/
def wsTokens : List Char → List (List Char)
  | [] => []
  | c :: cs =>
    if isWs c then wsTokens cs
    else
      match cs with
      | [] => [[c]]
      | d :: ds =>
        if isWs d then [c] :: wsTokens ds
        else
          match wsTokens (d :: ds) with
          | t :: ts => (c :: t) :: ts
          | [] => [[c]]

/-- State machine for `s.replace(/<[^>]+>/g, " ")`: outside a candidate tag
(state `none`) characters pass through and `<` opens a candidate; inside a
candidate (state `some acc`, `acc` holding the reversed characters read
since `<`, none of which is `>`), a closing `>` emits a single space when
at least one character was read (`[^>]+`), `<>` is left verbatim, and a
candidate still open at end of input is emitted verbatim (the regex finds
no match there, as no `>` remains). -/
def stripTagsGo : Option (List Char) → List Char → List Char
  | none, [] => []
  | some acc, [] => '<' :: acc.reverse
  | none, c :: cs =>
    if c = '<' then stripTagsGo (some []) cs else c :: stripTagsGo none cs
  | some acc, c :: cs =>
    if c = '>' then
      match acc with
      | [] => '<' :: '>' :: stripTagsGo none cs
      | _ :: _ => ' ' :: stripTagsGo none cs
    else stripTagsGo (some (c :: acc)) cs

/-- `s.replace(/<[^>]+>/g, " ")`. -/
def stripTags (s : List Char) : List Char :=
  stripTagsGo none s

/-- Case-insensitive prefix test; the pattern is given in lowercase
(the regexes carry the `i` flag). -/
def ciStartsWith : List Char → List Char → Bool
  | [], _ => true
  | _ :: _, [] => false
  | p :: ps, c :: cs => (p = c.toLower) && ciStartsWith ps cs

/-- Scan `[^>]*>`: drop characters up to and including the first `>`
(`none` when no `>` remains, in which case the open-tag pattern cannot
match at this position). -/
def afterOpenTag : List Char → Option (List Char)
  | [] => none
  | c :: cs => if c = '>' then some cs else afterOpenTag cs

/-- Lazy capture `([\s\S]*?)` up to the first `</body>` (case-insensitive);
`none` when no closing tag follows. -/
def captureToClose : List Char → Option (List Char)
  | [] => none
  | c :: cs =>
    if ciStartsWith "</body>".data (c :: cs) then some []
    else
      match captureToClose cs with
      | some cap => some (c :: cap)
      | none => none

/-- `htmlContent.match(/<body[^>]*>([\s\S]*?)<\/body>/is)`: the first
position where `<body` matches case-insensitively, followed by non-`>`
characters and `>`, is tried; its lazily captured group ends at the first
subsequent `</body>`.  On failure the scan resumes at the next
position. -/
def extractBody : List Char → Option (List Char)
  | [] => none
  | c :: cs =>
    if ciStartsWith "<body".data (c :: cs) then
      match afterOpenTag (cs.drop 4) with
      | some afterOpen =>
        match captureToClose afterOpen with
        | some cap => some cap
        | none => extractBody cs
      | none => extractBody cs
    else extractBody cs

/-- `bodyMatch?.[1] || htmlContent`: the captured body when the match
succeeded with a non-empty (truthy) group, else the whole document. -/
def bodyContentOf (html : List Char) : List Char :=
  match extractBody html with
  | some b => if b = [] then html else b
  | none => html

/-- The trimmed, tag-stripped, whitespace-collapsed body content split on
single spaces — the exact cleaning pipeline of `parseChapterData`. -/
def wordsOf (html : List Char) : List (List Char) :=
  (splitOnSpace (jsTrim (collapseWs (stripTags (bodyContentOf html))))).filter
    (fun w => w ≠ [])

/-- `wordCount` as computed by `parseChapterData`. -/
def wordCount (html : List Char) : Nat :=
  (wordsOf html).length

/-- `p.substring(0, p.lastIndexOf("/")) || ""`: the directory component of
a path (empty when there is no slash, and empty for a leading-slash-only
directory, via the `|| ""`). -/
def dirOf (s : String) : String :=
  let parts := splitOnChar '/' s.data
  if parts.length ≤ 1 then ""
  else String.mk (List.intercalate ['/'] parts.dropLast)

/-- `s.substring(s.lastIndexOf("."))`: the extension including the dot;
the whole string when there is no dot (`substring(-1)` clamps to 0). -/
def extOf (s : String) : String :=
  let parts := splitOnChar '.' s.data
  if parts.length ≤ 1 then s else String.mk ('.' :: parts.getLastD [])

/-- The path template `${opfBasePath ? opfBasePath + "/" : ""}${href}`. -/
def joinBase (basePath href : String) : String :=
  (if basePath == "" then "" else basePath ++ "/") ++ href

/-- Lookup in the unzipped archive (`unzippedEpub[path]`), file contents
modelled by their decoded text. -/
def lookupFile (files : List (String × String)) (path : String) : Option String :=
  ((files.find? (fun p => p.1 == path)).map (fun p => p.2))

example : collapseWs "a \t\n b".data = "a b".data := by decide
example : jsTrim "  a b  ".data = "a b".data := by decide
example : stripTags "<p>Hi</p> x <broken".data = " Hi  x <broken".data := by decide
example : extractBody "<html><BODY class=x>Hello</Body></html>".data = some "Hello".data := by decide
example : extractBody "<html><p>No body</p></html>".data = none := by decide
example : wordCount "<body>This is a test chapter.</body>".data = 5 := by decide
example : dirOf "Ops/001.html" = "Ops" := by decide
example : dirOf "001.html" = "" := by decide
example : extOf "images/cover.jpg" = ".jpg" := by decide
example : extOf "noext" = "noext" := by decide

/-! ## Metadata Normalizer (`extractMetadata` in metadata.ts) -/

/-- Helper `getDcText` of `extractMetadata`: falsy elements yield
`undefined`; a (non-empty) string is its own text; otherwise
`element._text || element._ || undefined`. -/
def getDcText (element : JVal) : JVal :=
  if element.truthy = false then JVal.undef
  else
    match element with
    | .str s => .str s
    | e => jOr (e.get "_text") (jOr (e.get "_") JVal.undef)

/-- Helper `getAuthors` of `extractMetadata`: wrap a single element into a
one-element array, extract each text, keep the truthy ones. -/
def getAuthors (creators : JVal) : List JVal :=
  if creators.truthy = false then []
  else ((toJsArray creators).map getDcText).filter (fun a => a.truthy)

/-- The `dc:subject` normalization of `extractMetadata`: arrays are mapped
through `getDcText` and filtered, a single element is wrapped, and the
resulting list is filtered once more (the source applies the outer
`.filter` to both branches). -/
def subjectsOf (subj : JVal) : List JVal :=
  if subj.truthy = false then []
  else
    ((match subj with
      | .arr l => (l.map getDcText).filter (fun s => s.truthy)
      | v => [getDcText v] : List JVal)).filter (fun s => JVal.truthy s)

/-- The cover-image-id scan of `extractMetadata`: find the first `meta`
element whose `name` is "cover" or whose `property` is "cover-image" and
take its `content` attribute or `#text`. -/
def coverIdOf (meta : JVal) : JVal :=
  if meta.truthy = false then JVal.undef
  else
    match (toJsArray meta).find? (fun m =>
        jsStrictEq (m.get "name") (.str "cover") ||
        jsStrictEq (m.get "property") (.str "cover-image")) with
    | none => JVal.undef
    | some m => jOr (m.get "content") (m.get "#text")

/-- The `EpubMetadata` record produced by `extractMetadata`.  Fields typed
`JVal` hold either a string or `undefined` exactly as in the loosely-typed
original. -/
structure EpubMetadata where
  title : JVal
  author : JVal
  authors : JVal
  publisher : JVal
  language : JVal
  isbn : JVal
  description : JVal
  subject : JVal
  date : JVal
  rights : JVal
  coverImageId : JVal
  epubVersion : String

/-- `extractMetadata(metadataNode, epubVersion)`.  (JS would throw if
`metadataNode` were `undefined`; the pipeline always passes the parsed
metadata block, an object, and field access on any non-`undefined` value
agrees with the total `JVal.get`.) -/
def extractMetadata (metadataNode : JVal) (epubVersion : String) : EpubMetadata :=
  let dcMetadata := metadataNode
  let title := jOr (getDcText (dcMetadata.get "dc:title")) (.str "Untitled")
  let authors := getAuthors (dcMetadata.get "dc:creator")
  let author := authors.headD JVal.undef
  let subjects := subjectsOf (dcMetadata.get "dc:subject")
  { title := title
    author := author
    authors := if authors.length > 0 then .arr authors else JVal.undef
    publisher := getDcText (dcMetadata.get "dc:publisher")
    language := getDcText (dcMetadata.get "dc:language")
    isbn := getDcText (dcMetadata.get "dc:identifier")
    description := getDcText (dcMetadata.get "dc:description")
    subject := if subjects.length > 0 then .arr subjects else JVal.undef
    date := getDcText (dcMetadata.get "dc:date")
    rights := getDcText (dcMetadata.get "dc:rights")
    coverImageId := coverIdOf (dcMetadata.get "meta")
    epubVersion := epubVersion }

/-! ## Manifest and spine items -/

/-- A normalized manifest item (output shape of `extractManifest`).  `id`,
`href` and `mediaType` are raw parser values, `string` in well-formed
packages. -/
structure EpubManifestItem where
  id : JVal
  href : JVal
  mediaType : JVal
  properties : List String
  isNavigation : Bool
  isCoverImage : Bool

/-- A normalized spine item (output shape of `extractSpine`). -/
structure EpubSpineItem where
  idref : JVal
  linear : Bool

/-- `extractSpine(spineNode)`:
`Array.isArray(spineNode.itemref) ? spineNode.itemref : [spineNode.itemref]`
followed by `itemrefs.map(itemref => ({ idref: itemref.idref,
linear: itemref.linear !== "no" }))`.  Reading `.idref` of an `undefined`
entry (which is what the wrapping produces when the spine has no
`itemref`) throws. -/
def extractSpineMap : List JVal → Except JsErr (List EpubSpineItem)
  | [] => .ok []
  | itemref :: rest =>
    match itemref.getE "idref" with
    | .error e => .error e
    | .ok idrefV =>
      match itemref.getE "linear" with
      | .error e => .error e
      | .ok linearV =>
        match extractSpineMap rest with
        | .error e => .error e
        | .ok tail =>
          .ok ({ idref := idrefV, linear := !(jsStrictEq linearV (.str "no")) } :: tail)

def extractSpine (spineNode : JVal) : Except JsErr (List EpubSpineItem) :=
  match spineNode.getE "itemref" with
  | .error e => .error e
  | .ok itemrefVal => extractSpineMap (toJsArray itemrefVal)

example :
    extractSpine (.obj [("toc", .str "ncx")]) =
      .error (.typeError "Cannot read properties of undefined (reading idref)") := rfl

example :
    extractSpine (.obj [("itemref", .obj [("idref", .str "c1")])]) =
      .ok [{ idref := .str "c1", linear := true }] := rfl

/-! ## Chapter Extractor (`parseChapterData`, `parseChapters`) -/

/-- The `ParsedChapter` record produced by `parseChapterData`. -/
structure ParsedChapter where
  chapterNumber : Nat
  spineIndex : Nat
  title : JVal
  href : JVal
  htmlContent : String
  wordCount : Nat

/-- `parseChapterData(htmlContent, chapterNumber, spineIndex, href)`:
parse the markup (may throw — propagated), read
`parsedHtml.html?.head?.title`, compute the word count from the raw text
via the body-isolating pipeline, and return the record with the trimmed
markup.  (The plain access `parsedHtml.html` throws when the parse result
is `undefined`; the optional-chain accesses after it are the total
`JVal.get`.) -/
def parseChapterData (xmlParse : String → Except JsErr JVal) (htmlContent : String)
    (chapterNumber spineIndex : Nat) (href : JVal) : Except JsErr ParsedChapter :=
  match xmlParse htmlContent with
  | .error e => .error e
  | .ok parsedHtml =>
    match parsedHtml.getE "html" with
    | .error e => .error e
    | .ok htmlNode =>
      .ok { chapterNumber := chapterNumber
            spineIndex := spineIndex
            title := (htmlNode.get "head").get "title"
            href := href
            htmlContent := String.mk (jsTrim htmlContent.data)
            wordCount := wordCount htmlContent.data }

/-- The `NewChapter` rows pushed by `parseChapters` (sans `bookId`). -/
structure NewChapter where
  title : JVal
  wordCount : Nat
  chapterNumber : Nat
  href : JVal
  htmlContent : String
  spineIndex : Nat

/-- The loop body of `parseChapters`, indexed by the current spine
position.  A spine entry whose `idref` matches no manifest `id` is
skipped (`continue`); a missing chapter file decodes to `""`
(`TextDecoder.decode(undefined)`) and is skipped, as is a present but
empty file; otherwise `parseChapterData` runs — an exception from it is
not caught and aborts the whole loop.  (The source's
`if (!chapterData)` check after the call is dead code:
`parseChapterData` always returns an object when it returns.) -/
def parseChaptersGo (xmlParse : String → Except JsErr JVal)
    (manifest : List EpubManifestItem) (opfBasePath : String)
    (files : List (String × String)) :
    List EpubSpineItem → Nat → Except JsErr (List NewChapter)
  | [], _ => .ok []
  | spineItem :: rest, index =>
    match manifest.find? (fun item => jsStrictEq item.id spineItem.idref) with
    | none => parseChaptersGo xmlParse manifest opfBasePath files rest (index + 1)
    | some manifestItem =>
      let chapterPath := joinBase opfBasePath (jTemplate manifestItem.href)
      let chapterString := (lookupFile files chapterPath).getD ""
      if chapterString = "" then
        parseChaptersGo xmlParse manifest opfBasePath files rest (index + 1)
      else
        match parseChapterData xmlParse chapterString (index + 1) index manifestItem.href with
        | .error e => .error e
        | .ok chapterData =>
          match parseChaptersGo xmlParse manifest opfBasePath files rest (index + 1) with
          | .error e => .error e
          | .ok restChapters =>
            .ok ({ title := chapterData.title
                   wordCount := chapterData.wordCount
                   chapterNumber := chapterData.chapterNumber
                   href := manifestItem.href
                   htmlContent := chapterData.htmlContent
                   spineIndex := index } :: restChapters)

/-- `parseChapters(spineItems, manifest, opfBasePath, unzippedEpub)`. -/
def parseChapters (xmlParse : String → Except JsErr JVal)
    (spineItems : List EpubSpineItem) (manifest : List EpubManifestItem)
    (opfBasePath : String) (files : List (String × String)) :
    Except JsErr (List NewChapter) :=
  parseChaptersGo xmlParse manifest opfBasePath files spineItems 0

/-! ## Asset Classifier (`parseAssets`) -/

/-- Whether a manifest media-type is one of the two chapter-markup content
types skipped by `parseAssets`. -/
def isChapterMedia (mediaType : JVal) : Bool :=
  jsStrictEq mediaType (.str "application/xhtml+xml") ||
  jsStrictEq mediaType (.str "text/html")

/-- JS object assignment `m[k] = v`: overwrite in place when the key
exists, append otherwise. -/
def recordSet (m : List (String × String)) (k v : String) : List (String × String) :=
  if m.any (fun p => p.1 == k) then
    m.map (fun p => if p.1 == k then (k, v) else p)
  else m ++ [(k, v)]

/-- The loop of `parseAssets` over the manifest, accumulating the `assets`
record: skip chapter-markup items; look up `opfBasePath`-resolved paths;
on hit store under the manifest-declared href, on miss just warn. -/
def parseAssetsGo (files : List (String × String)) (opfBasePath : String) :
    List EpubManifestItem → List (String × String) → List (String × String)
  | [], assets => assets
  | item :: rest, assets =>
    if isChapterMedia item.mediaType then parseAssetsGo files opfBasePath rest assets
    else
      match lookupFile files (joinBase opfBasePath (jTemplate item.href)) with
      | some assetData =>
        parseAssetsGo files opfBasePath rest (recordSet assets (jTemplate item.href) assetData)
      | none => parseAssetsGo files opfBasePath rest assets

/-- `parseAssets(unzippedEpub, manifest, opfBasePath)`. -/
def parseAssets (files : List (String × String)) (manifest : List EpubManifestItem)
    (opfBasePath : String) : List (String × String) :=
  parseAssetsGo files opfBasePath manifest []

/-! ## Cover Resolver (`uploadCoverImage` and its `findFirstImage`) -/

/-- The `for (const img of images) if (img.src) return img.src` loop:
first truthy `src`; reading `.src` of an `undefined` element throws. -/
def firstSrc : List JVal → Except JsErr (Option JVal)
  | [] => .ok none
  | img :: rest =>
    match img.getE "src" with
    | .error e => .error e
    | .ok s => if s.truthy then .ok (some s) else firstSrc rest

/-- Chain two search steps: propagate errors, keep the first hit. -/
def orFind (a : Except JsErr (Option JVal)) (b : Unit → Except JsErr (Option JVal)) :
    Except JsErr (Option JVal) :=
  match a with
  | .error e => .error e
  | .ok (some s) => .ok (some s)
  | .ok none => b ()

/-- Search each element of a list in order. -/
def findInList (f : JVal → Except JsErr (Option JVal)) :
    List JVal → Except JsErr (Option JVal)
  | [] => .ok none
  | v :: rest => orFind (f v) (fun _ => findInList f rest)

/-- `findFirstImage(node)` of `uploadCoverImage`, with explicit recursion
fuel (the JS function recurses on the tree structure; `JVal.fuel node`
bounds its depth so the fuel never runs out on the argument tree): falsy
nodes yield null; otherwise try, in order, the node's own `img` entries
(first truthy `src` wins), then recurse into `html`, `body`, each `div`,
and each `p` — each guarded by truthiness exactly as in the source. -/
def findFirstImageF : Nat → JVal → Except JsErr (Option JVal)
  | 0, _ => .ok none
  | n + 1, node =>
    if node.truthy = false then .ok none
    else
      orFind
        (if (node.get "img").truthy then firstSrc (toJsArray (node.get "img")) else .ok none)
        (fun _ => orFind
          (if (node.get "html").truthy then findFirstImageF n (node.get "html") else .ok none)
          (fun _ => orFind
            (if (node.get "body").truthy then findFirstImageF n (node.get "body") else .ok none)
            (fun _ => orFind
              (if (node.get "div").truthy then
                findInList (findFirstImageF n) (toJsArray (node.get "div"))
               else .ok none)
              (fun _ =>
                if (node.get "p").truthy then
                  findInList (findFirstImageF n) (toJsArray (node.get "p"))
                else .ok none))))

/-- `findFirstImage(node)`. -/
def findFirstImage (node : JVal) : Except JsErr (Option JVal) :=
  findFirstImageF node.fuel node

/-- `imageSrc.substring(imageSrc.lastIndexOf("."))`: throws when
`imageSrc` is not a string. -/
def jsExtensionE : JVal → Except JsErr String
  | .str s => .ok (extOf s)
  | _ => .error (.typeError "imageSrc.substring is not a function")

/-- The body of `uploadCoverImage` before its `try`/`catch`: all the
early-return-null paths, the chapter-relative image resolution, and the
successful outcome — the image bytes plus the extension of the source
reference (the written object key is `books/covers/<uuid><extension>`;
the random uuid is outside the model, so the result carries the data that
names and fills the stored object).  The source's `if (!firstSpineItem)`
re-check after the length test cannot fire (a non-empty spine's first
element is an object, hence truthy). -/
def uploadCoverImageE (xmlParse : String → Except JsErr JVal)
    (files : List (String × String)) (spine : List EpubSpineItem)
    (manifest : List EpubManifestItem) (opfBasePath : String) :
    Except JsErr (Option (String × String)) :=
  match spine with
  | [] => .ok none
  | firstSpineItem :: _ =>
    match manifest.find? (fun item => jsStrictEq item.id firstSpineItem.idref) with
    | none => .ok none
    | some manifestItem =>
      let htmlPath := joinBase opfBasePath (jTemplate manifestItem.href)
      match lookupFile files htmlPath with
      | none => .ok none
      | some htmlContent =>
        let htmlDir := dirOf htmlPath
        match xmlParse htmlContent with
        | .error e => .error e
        | .ok parsedHtml =>
          match findFirstImage parsedHtml with
          | .error e => .error e
          | .ok none => .ok none
          | .ok (some imageSrc) =>
            let resolvedImagePath :=
              if htmlDir == "" then jTemplate imageSrc
              else htmlDir ++ "/" ++ jTemplate imageSrc
            match lookupFile files resolvedImagePath with
            | none => .ok none
            | some imageData =>
              match jsExtensionE imageSrc with
              | .error e => .error e
              | .ok extension => .ok (some (imageData, extension))

/-- `uploadCoverImage(unzippedEpub, parsedEpub)`: the whole body runs in a
`try`/`catch` whose handler returns null, so any thrown exception becomes
`none`. -/
def uploadCoverImage (xmlParse : String → Except JsErr JVal)
    (files : List (String × String)) (spine : List EpubSpineItem)
    (manifest : List EpubManifestItem) (opfBasePath : String) :
    Option (String × String) :=
  match uploadCoverImageE xmlParse files spine manifest opfBasePath with
  | .ok r => r
  | .error _ => none

set_option maxRecDepth 10000

/-! ## The word-count pipeline computes the number of whitespace-separated
tokens

The chain below relates the operational pipeline
`split(" ") ∘ trim ∘ replace(/\s+/g," ")` to the declarative `wsTokens`. -/

theorem wsTokens_cons_ws {c : Char} (cs : List Char) (h : isWs c = true) :
    wsTokens (c :: cs) = wsTokens cs := by
  cases cs <;> simp [wsTokens, h]

theorem wsTokens_dropWhile (l : List Char) :
    wsTokens (l.dropWhile isWs) = wsTokens l := by
  induction l with
  | nil => rfl
  | cons c cs ih =>
    by_cases h : isWs c
    · rw [List.dropWhile_cons, if_pos h, ih, wsTokens_cons_ws cs h]
    · rw [List.dropWhile_cons, if_neg h]

theorem collapseWs_cons_ws :
    ∀ (c : Char) (cs : List Char), isWs c = true →
      collapseWs (c :: cs) = ' ' :: collapseWs (cs.dropWhile isWs) := by
  intro c cs
  induction cs generalizing c with
  | nil => intro h; simp [collapseWs, h]
  | cons d ds ih =>
    intro h
    by_cases hd : isWs d
    · have h1 : collapseWs (c :: d :: ds) = collapseWs (d :: ds) := by
        simp [collapseWs, h, hd]
      rw [List.dropWhile_cons, if_pos hd, h1, ih d hd]
    · rw [List.dropWhile_cons, if_neg hd]
      simp [collapseWs, h, hd]

theorem collapseWs_cons_not_ws {c : Char} (cs : List Char) (h : isWs c = false) :
    collapseWs (c :: cs) = c :: collapseWs cs := by
  cases cs <;> simp [collapseWs, h]

theorem collapseWs_eq_nil (l : List Char) : collapseWs l = [] ↔ l = [] := by
  cases l with
  | nil => simp [collapseWs]
  | cons c cs =>
    constructor
    · intro h
      by_cases hc : isWs c
      · rw [collapseWs_cons_ws c cs hc] at h; exact absurd h (by simp)
      · rw [collapseWs_cons_not_ws cs (by simpa using hc)] at h
        exact absurd h (by simp)
    · intro h; exact absurd h (by simp)

theorem length_dropWhile_ws_le (l : List Char) :
    (l.dropWhile isWs).length ≤ l.length :=
  (List.dropWhile_sublist isWs).length_le

theorem wsTokens_singleton {c : Char} (hc : isWs c = false) :
    wsTokens [c] = [[c]] := by
  simp [wsTokens, hc]

theorem wsTokens_cons_cons_ws {c d : Char} (ds : List Char)
    (hc : isWs c = false) (hd : isWs d = true) :
    wsTokens (c :: d :: ds) = [c] :: wsTokens ds := by
  simp [wsTokens, hc, hd]

theorem wsTokens_cons_cons_not_ws {c d : Char} (ds : List Char)
    (hc : isWs c = false) (hd : isWs d = false) :
    wsTokens (c :: d :: ds) =
      match wsTokens (d :: ds) with
      | t :: ts => (c :: t) :: ts
      | [] => [[c]] := by
  simp [wsTokens, hc, hd]

theorem wsTokens_collapseWs (s : List Char) :
    wsTokens (collapseWs s) = wsTokens s := by
  have aux : ∀ (n : Nat) (l : List Char), l.length ≤ n →
      wsTokens (collapseWs l) = wsTokens l := by
    intro n
    induction n with
    | zero =>
      intro l hl
      have : l = [] := List.length_eq_zero.mp (Nat.le_zero.mp hl)
      subst this; rfl
    | succ n ih =>
      intro l hl
      match l with
      | [] => rfl
      | c :: cs =>
        by_cases hc : isWs c
        · rw [collapseWs_cons_ws c cs hc]
          rw [wsTokens_cons_ws _ (by decide : isWs ' ' = true)]
          rw [ih (cs.dropWhile isWs)
            (le_trans (length_dropWhile_ws_le _) (Nat.le_of_succ_le_succ hl))]
          rw [wsTokens_dropWhile, wsTokens_cons_ws cs hc]
        · have hc' : isWs c = false := by simpa using hc
          rw [collapseWs_cons_not_ws cs hc']
          match cs with
          | [] => rfl
          | d :: ds =>
            have hlen : (d :: ds).length ≤ n := by
              simpa using Nat.le_of_succ_le_succ hl
            by_cases hd : isWs d
            · rw [collapseWs_cons_ws d ds hd,
                wsTokens_cons_cons_ws _ hc' (by decide : isWs ' ' = true),
                wsTokens_cons_cons_ws ds hc' hd]
              rw [ih (ds.dropWhile isWs)
                (le_trans (length_dropWhile_ws_le _) (le_trans (Nat.le_succ _) hlen))]
              rw [wsTokens_dropWhile]
            · have hd' : isWs d = false := by simpa using hd
              have hkey : wsTokens (d :: collapseWs ds) = wsTokens (d :: ds) := by
                rw [← collapseWs_cons_not_ws ds hd']
                exact ih (d :: ds) hlen
              rw [collapseWs_cons_not_ws ds hd',
                wsTokens_cons_cons_not_ws _ hc' hd',
                wsTokens_cons_cons_not_ws ds hc' hd', hkey]
  exact aux s.length s le_rfl

theorem dropTrailingWs_eq_nil (l : List Char) :
    dropTrailingWs l = [] ↔ ∀ c ∈ l, isWs c = true := by
  induction l with
  | nil => simp [dropTrailingWs]
  | cons c cs ih =>
    cases h : dropTrailingWs cs with
    | nil =>
      by_cases hc : isWs c
      · simp only [dropTrailingWs, h]
        simp only [hc, if_pos]
        constructor
        · intro _; intro x hx
          rcases List.mem_cons.mp hx with rfl | hx
          · exact hc
          · exact (ih.mp h) x hx
        · intro _; trivial
      · simp only [dropTrailingWs, h]
        have hc' : isWs c = false := by simpa using hc
        simp only [hc', Bool.false_eq_true, reduceIte]
        constructor
        · intro hcontra; exact absurd hcontra (by simp)
        · intro hall
          exact absurd (hall c (List.mem_cons_self c cs)) (by simp [hc'])
    | cons e es =>
      simp only [dropTrailingWs, h]
      constructor
      · intro hcontra; exact absurd hcontra (by simp)
      · intro hall
        have : dropTrailingWs cs = [] :=
          ih.mpr (fun x hx => hall x (List.mem_cons_of_mem c hx))
        rw [this] at h; exact absurd h (by simp)

theorem wsTokens_nil_of_all_ws (l : List Char) (h : ∀ c ∈ l, isWs c = true) :
    wsTokens l = [] := by
  induction l with
  | nil => rfl
  | cons c cs ih =>
    rw [wsTokens_cons_ws cs (h c (List.mem_cons_self c cs))]
    exact ih (fun x hx => h x (List.mem_cons_of_mem c hx))

theorem dropTrailingWs_cons_structure (c : Char) (cs : List Char) (e : Char)
    (r : List Char) (h : dropTrailingWs (c :: cs) = e :: r) :
    c = e ∧ dropTrailingWs cs = r ∨
    c = e ∧ r = [] ∧ dropTrailingWs cs = [] := by
  cases hcs : dropTrailingWs cs with
  | nil =>
    by_cases hc : isWs c
    · simp only [dropTrailingWs, hcs, hc, if_pos] at h
      exact absurd h (by simp)
    · have hc' : isWs c = false := by simpa using hc
      simp only [dropTrailingWs, hcs, hc', Bool.false_eq_true, reduceIte] at h
      obtain ⟨h1, h2⟩ := List.cons_eq_cons.mp h
      exact Or.inr ⟨h1, h2.symm, rfl⟩
  | cons x xs =>
    simp only [dropTrailingWs, hcs] at h
    obtain ⟨h1, h2⟩ := List.cons_eq_cons.mp h
    exact Or.inl ⟨h1, h2⟩

theorem wsTokens_dropTrailingWs (l : List Char) :
    wsTokens (dropTrailingWs l) = wsTokens l := by
  induction l with
  | nil => rfl
  | cons c cs ih =>
    cases h : dropTrailingWs cs with
    | nil =>
      have hall : ∀ x ∈ cs, isWs x = true := (dropTrailingWs_eq_nil cs).mp h
      by_cases hc : isWs c
      · simp only [dropTrailingWs, h, hc, if_pos]
        rw [wsTokens_cons_ws cs hc, wsTokens_nil_of_all_ws cs hall]
        rfl
      · have hc' : isWs c = false := by simpa using hc
        simp only [dropTrailingWs, h, hc', Bool.false_eq_true, reduceIte]
        rw [wsTokens_singleton hc']
        cases cs with
        | nil => rw [wsTokens_singleton hc']
        | cons d ds =>
          have hd : isWs d = true := hall d (List.mem_cons_self d ds)
          rw [wsTokens_cons_cons_ws ds hc' hd,
            wsTokens_nil_of_all_ws ds
              (fun x hx => hall x (List.mem_cons_of_mem d hx))]
    | cons e es =>
      have hstep : dropTrailingWs (c :: cs) = c :: e :: es := by
        simp [dropTrailingWs, h]
      rw [hstep]
      rw [h] at ih
      -- head of `cs` is `e`: `dropTrailingWs` preserves the head
      obtain ⟨cs', rfl⟩ : ∃ cs', cs = e :: cs' := by
        cases cs with
        | nil => simp [dropTrailingWs] at h
        | cons x xs =>
          rcases dropTrailingWs_cons_structure x xs e es h with ⟨rfl, _⟩ | ⟨rfl, _, _⟩
          · exact ⟨xs, rfl⟩
          · exact ⟨xs, rfl⟩
      by_cases hc : isWs c
      · rw [wsTokens_cons_ws _ hc, wsTokens_cons_ws _ hc]
        exact ih
      · have hc' : isWs c = false := by simpa using hc
        by_cases he : isWs e
        · rw [wsTokens_cons_cons_ws es hc' he, wsTokens_cons_cons_ws cs' hc' he]
          have := ih
          rw [wsTokens_cons_ws es he, wsTokens_cons_ws cs' he] at this
          rw [this]
        · have he' : isWs e = false := by simpa using he
          rw [wsTokens_cons_cons_not_ws es hc' he',
            wsTokens_cons_cons_not_ws cs' hc' he', ih]

theorem wsTokens_jsTrim (l : List Char) : wsTokens (jsTrim l) = wsTokens l := by
  rw [jsTrim, wsTokens_dropTrailingWs, wsTokens_dropWhile]

/-- Every whitespace character of the string is a plain space (the shape
`replace(/\s+/g, " ")` guarantees). -/
def onlySpace (l : List Char) : Prop :=
  ∀ c ∈ l, isWs c = true → c = ' '

theorem onlySpace_collapseWs (s : List Char) : onlySpace (collapseWs s) := by
  have aux : ∀ (n : Nat) (l : List Char), l.length ≤ n → onlySpace (collapseWs l) := by
    intro n
    induction n with
    | zero =>
      intro l hl
      have : l = [] := List.length_eq_zero.mp (Nat.le_zero.mp hl)
      subst this; intro c hc; simp [collapseWs] at hc
    | succ n ih =>
      intro l hl
      match l with
      | [] => intro c hc; simp [collapseWs] at hc
      | c :: cs =>
        by_cases hc : isWs c
        · rw [collapseWs_cons_ws c cs hc]
          intro x hx hxw
          rcases List.mem_cons.mp hx with rfl | hx
          · rfl
          · exact ih (cs.dropWhile isWs)
              (le_trans (length_dropWhile_ws_le _) (Nat.le_of_succ_le_succ hl)) x hx hxw
        · have hc' : isWs c = false := by simpa using hc
          rw [collapseWs_cons_not_ws cs hc']
          intro x hx hxw
          rcases List.mem_cons.mp hx with rfl | hx
          · exact absurd hxw (by simp [hc'])
          · exact ih cs (Nat.le_of_succ_le_succ hl) x hx hxw
  exact aux s.length s le_rfl

theorem dropTrailingWs_sublist (l : List Char) :
    List.Sublist (dropTrailingWs l) l := by
  induction l with
  | nil => simp [dropTrailingWs]
  | cons c cs ih =>
    cases h : dropTrailingWs cs with
    | nil =>
      by_cases hc : isWs c
      · simp only [dropTrailingWs, h, hc, if_pos]
        exact List.nil_sublist _
      · have hc' : isWs c = false := by simpa using hc
        simp only [dropTrailingWs, h, hc', Bool.false_eq_true, reduceIte]
        exact (List.nil_sublist cs).cons₂ c
    | cons x xs =>
      simp only [dropTrailingWs, h]
      rw [h] at ih
      exact ih.cons₂ c

theorem onlySpace_jsTrim_collapseWs (u : List Char) :
    onlySpace (jsTrim (collapseWs u)) := by
  intro c hc hcw
  have hsub : List.Sublist (jsTrim (collapseWs u)) (collapseWs u) := by
    rw [jsTrim]
    exact (dropTrailingWs_sublist _).trans (List.dropWhile_sublist _)
  exact onlySpace_collapseWs u c (hsub.subset hc) hcw

theorem splitOnChar_ne_nil (sep : Char) (l : List Char) : splitOnChar sep l ≠ [] := by
  cases l with
  | nil => simp [splitOnChar]
  | cons c cs =>
    by_cases h : c = sep
    · simp [splitOnChar, h]
    · simp only [splitOnChar, h, Bool.false_eq_true, reduceIte]
      cases hs : splitOnChar sep cs <;> simp

theorem filter_splitOnSpace_eq_wsTokens :
    ∀ (u : List Char), onlySpace u →
      (splitOnSpace u).filter (fun w => w ≠ []) = wsTokens u := by
  intro u
  induction u with
  | nil => intro _; rfl
  | cons c cs ih =>
    intro hos
    have hos' : onlySpace cs := fun x hx => hos x (List.mem_cons_of_mem c hx)
    by_cases hsp : c = ' '
    · subst hsp
      have h1 : splitOnSpace (' ' :: cs) = [] :: splitOnSpace cs := by
        simp [splitOnSpace, splitOnChar]
      rw [h1]
      have h2 : ([] :: splitOnSpace cs).filter (fun w => w ≠ []) =
          (splitOnSpace cs).filter (fun w => w ≠ []) := by simp
      rw [h2, ih hos', wsTokens_cons_ws cs (by decide : isWs ' ' = true)]
    · have hcw : isWs c = false := by
        cases h : isWs c with
        | true => exact absurd (hos c (List.mem_cons_self c cs) h) hsp
        | false => rfl
      cases cs with
      | nil =>
        have h1 : splitOnSpace [c] = [[c]] := by simp [splitOnSpace, splitOnChar, hsp]
        rw [h1, wsTokens_singleton hcw]
        simp
      | cons d ds =>
        by_cases hdsp : d = ' '
        · subst hdsp
          have hsplit : splitOnSpace (c :: ' ' :: ds) = [c] :: splitOnSpace ds := by
            simp [splitOnSpace, splitOnChar, hsp]
          have hsplit2 : splitOnSpace (' ' :: ds) = [] :: splitOnSpace ds := by
            simp [splitOnSpace, splitOnChar]
          have hihres := ih hos'
          rw [hsplit2] at hihres
          have h3 : (([] :: splitOnSpace ds).filter (fun w => w ≠ [])) =
              (splitOnSpace ds).filter (fun w => w ≠ []) := by simp
          rw [h3, wsTokens_cons_ws ds (by decide : isWs ' ' = true)] at hihres
          have h4 : (([c] :: splitOnSpace ds).filter (fun w => w ≠ [])) =
              [c] :: (splitOnSpace ds).filter (fun w => w ≠ []) := by simp
          rw [hsplit, h4, hihres,
            wsTokens_cons_cons_ws ds hcw (by decide : isWs ' ' = true)]
        · have hdw : isWs d = false := by
            cases h : isWs d with
            | true =>
              exact absurd (hos d (List.mem_cons_of_mem c (List.mem_cons_self d ds)) h) hdsp
            | false => rfl
          cases hsds : splitOnChar ' ' ds with
          | nil => exact absurd hsds (splitOnChar_ne_nil ' ' ds)
          | cons t ts =>
            have hsplitcs : splitOnSpace (d :: ds) = (d :: t) :: ts := by
              simp [splitOnSpace, splitOnChar, hdsp, hsds]
            have hsplit : splitOnSpace (c :: d :: ds) = (c :: d :: t) :: ts := by
              simp [splitOnSpace, splitOnChar, hsp, hdsp, hsds]
            have hihres := ih hos'
            rw [hsplitcs] at hihres
            have h5 : (((d :: t) :: ts).filter (fun w => w ≠ [])) =
                (d :: t) :: ts.filter (fun w => w ≠ []) := by simp
            rw [h5] at hihres
            have h6 : (((c :: d :: t) :: ts).filter (fun w => w ≠ [])) =
                (c :: d :: t) :: ts.filter (fun w => w ≠ []) := by simp
            rw [hsplit, h6, wsTokens_cons_cons_not_ws ds hcw hdw, ← hihres]

theorem wordsOf_eq_wsTokens (html : List Char) :
    wordsOf html = wsTokens (stripTags (bodyContentOf html)) := by
  rw [wordsOf,
    filter_splitOnSpace_eq_wsTokens _ (onlySpace_jsTrim_collapseWs _),
    wsTokens_jsTrim, wsTokens_collapseWs]

/-- The word count of `parseChapterData` is exactly the number of maximal
non-whitespace runs of the tag-stripped selected body content. -/
theorem wordCount_eq_wsTokens_length (html : List Char) :
    wordCount html = (wsTokens (stripTags (bodyContentOf html))).length := by
  rw [wordCount, wordsOf_eq_wsTokens]

/-! ## Structure of the chapter list -/

theorem parseChapterData_ok_fields (xmlParse : String → Except JsErr JVal)
    (s : String) (n k : Nat) (h : JVal) (cd : ParsedChapter)
    (hok : parseChapterData xmlParse s n k h = .ok cd) :
    cd.chapterNumber = n ∧ cd.spineIndex = k ∧ cd.href = h ∧
    cd.wordCount = wordCount s.data ∧
    cd.htmlContent = String.mk (jsTrim s.data) := by
  unfold parseChapterData at hok
  cases hx : xmlParse s with
  | error e => rw [hx] at hok; exact absurd hok (by simp)
  | ok v =>
    rw [hx] at hok
    dsimp only at hok
    cases hg : v.getE "html" with
    | error e =>
      rw [hg] at hok
      exact absurd hok (by simp)
    | ok htmlNode =>
      rw [hg] at hok
      cases hok
      exact ⟨rfl, rfl, rfl, rfl, rfl⟩

/-- Full structural invariant of the `parseChapters` loop: starting at
spine position `i`, a successful run yields at most one chapter per spine
entry, with strictly increasing spine indices in `[i, i + rest.length)`,
`chapterNumber = spineIndex + 1`, and each chapter traceable to the spine
entry at its `spineIndex` and that entry's resolved manifest item. -/
theorem parseChaptersGo_spec (xmlParse : String → Except JsErr JVal)
    (manifest : List EpubManifestItem) (bp : String) (files : List (String × String)) :
    ∀ (rest : List EpubSpineItem) (i : Nat) (l : List NewChapter),
      parseChaptersGo xmlParse manifest bp files rest i = .ok l →
      l.length ≤ rest.length ∧
      (∀ c ∈ l, i ≤ c.spineIndex ∧ c.spineIndex < i + rest.length ∧
        c.chapterNumber = c.spineIndex + 1 ∧
        (∃ se mi, rest.get? (c.spineIndex - i) = some se ∧
          manifest.find? (fun it => jsStrictEq it.id se.idref) = some mi ∧
          c.href = mi.href)) ∧
      List.Pairwise (fun a b => a.spineIndex < b.spineIndex) l := by
  intro rest
  induction rest with
  | nil =>
    intro i l h
    simp only [parseChaptersGo] at h
    cases h
    exact ⟨by simp, by simp, by simp⟩
  | cons s rest ih =>
    intro i l h
    have transfer :
        parseChaptersGo xmlParse manifest bp files rest (i + 1) = .ok l →
        l.length ≤ (s :: rest).length ∧
        (∀ c ∈ l, i ≤ c.spineIndex ∧ c.spineIndex < i + (s :: rest).length ∧
          c.chapterNumber = c.spineIndex + 1 ∧
          (∃ se mi, (s :: rest).get? (c.spineIndex - i) = some se ∧
            manifest.find? (fun it => jsStrictEq it.id se.idref) = some mi ∧
            c.href = mi.href)) ∧
        List.Pairwise (fun a b => a.spineIndex < b.spineIndex) l := by
      intro hskip
      obtain ⟨h1, h2, h3⟩ := ih (i + 1) l hskip
      refine ⟨le_trans h1 (by simp), ?_, h3⟩
      intro c hc
      obtain ⟨hlo, hhi, hnum, se, mi, hget, hfind, hhref⟩ := h2 c hc
      refine ⟨le_trans (Nat.le_succ i) hlo, by simp at hhi ⊢; omega, hnum,
        se, mi, ?_, hfind, hhref⟩
      have hidx : c.spineIndex - i = (c.spineIndex - (i + 1)) + 1 := by omega
      rw [hidx]
      simpa using hget
    simp only [parseChaptersGo] at h
    cases hfind : manifest.find? (fun item => jsStrictEq item.id s.idref) with
    | none =>
      rw [hfind] at h
      exact transfer h
    | some manifestItem =>
      rw [hfind] at h
      dsimp only at h
      by_cases hcs : (lookupFile files
          (joinBase bp (jTemplate manifestItem.href))).getD "" = ""
      · rw [if_pos hcs] at h
        exact transfer h
      · rw [if_neg hcs] at h
        cases hcd : parseChapterData xmlParse
            ((lookupFile files (joinBase bp (jTemplate manifestItem.href))).getD "")
            (i + 1) i manifestItem.href with
        | error e => rw [hcd] at h; exact absurd h (by simp)
        | ok cd =>
          rw [hcd] at h
          cases hrest : parseChaptersGo xmlParse manifest bp files rest (i + 1) with
          | error e => rw [hrest] at h; exact absurd h (by simp)
          | ok l' =>
            rw [hrest] at h
            dsimp only at h
            obtain ⟨hnum, hsp, hhref, hwc, hhtml⟩ :=
              parseChapterData_ok_fields xmlParse _ (i + 1) i manifestItem.href cd hcd
            obtain ⟨h1, h2, h3⟩ := ih (i + 1) l' hrest
            cases h
            constructor
            · simpa using Nat.succ_le_succ h1
            constructor
            · intro c hc
              rcases List.mem_cons.mp hc with rfl | hc
              · refine ⟨le_rfl, by simp, by simpa using hnum, s, manifestItem, ?_, hfind, rfl⟩
                simp
              · obtain ⟨hlo, hhi, hnum', se, mi, hget, hfind', hhref'⟩ := h2 c hc
                refine ⟨le_trans (Nat.le_succ i) hlo, by simp at hhi ⊢; omega, hnum',
                  se, mi, ?_, hfind', hhref'⟩
                have hidx : c.spineIndex - i = (c.spineIndex - (i + 1)) + 1 := by omega
                rw [hidx]
                simpa using hget
            · refine List.pairwise_cons.mpr ⟨?_, h3⟩
              intro c hc
              have := (h2 c hc).1
              simpa using lt_of_lt_of_le (Nat.lt_succ_self i) this

/-! ## Structure of the asset map -/

theorem recordSet_keys (m : List (String × String)) (k v : String) (x : String) :
    x ∈ (recordSet m k v).map Prod.fst ↔ x ∈ m.map Prod.fst ∨ x = k := by
  unfold recordSet
  by_cases h : m.any (fun p => p.1 == k)
  · rw [if_pos h]
    have hk : k ∈ m.map Prod.fst := by
      obtain ⟨p, hp, hpk⟩ := List.any_eq_true.mp h
      have : p.1 = k := by simpa using hpk
      exact this ▸ List.mem_map_of_mem Prod.fst hp
    constructor
    · intro hx
      obtain ⟨p, hp, hpx⟩ := List.mem_map.mp hx
      obtain ⟨q, hq, hqp⟩ := List.mem_map.mp hp
      by_cases hqk : q.1 = k
      · right; rw [← hpx, ← hqp]; simp [hqk]
      · left
        rw [← hpx, ← hqp]
        simp only [hqk, beq_iff_eq, if_neg]
        exact List.mem_map_of_mem Prod.fst hq
    · intro hx
      rcases hx with hx | hxk
      · obtain ⟨q, hq, hqx⟩ := List.mem_map.mp hx
        by_cases hqk : q.1 = k
        · have hxk : x = k := by rw [← hqx, hqk]
          rw [hxk]
          obtain ⟨p, hp, hpk⟩ := List.any_eq_true.mp h
          have hpke : p.1 = k := by simpa using hpk
          refine List.mem_map.mpr ⟨(k, v), ?_, rfl⟩
          refine List.mem_map.mpr ⟨p, hp, ?_⟩
          simp [hpke]
        · refine List.mem_map.mpr ⟨q, List.mem_map.mpr ⟨q, hq, by simp [hqk]⟩, hqx⟩
      · rw [hxk]
        obtain ⟨p, hp, hpk⟩ := List.any_eq_true.mp h
        have hpke : p.1 = k := by simpa using hpk
        refine List.mem_map.mpr ⟨(k, v), List.mem_map.mpr ⟨p, hp, by simp [hpke]⟩, rfl⟩
  · rw [if_neg h]
    rw [List.map_append]
    simp
theorem recordSet_values (m : List (String × String)) (k v : String)
    (P : String × String → Prop) (hm : ∀ p ∈ m, P p) (hkv : P (k, v)) :
    ∀ p ∈ recordSet m k v, P p := by
  intro p hp
  unfold recordSet at hp
  by_cases h : m.any (fun q => q.1 == k)
  · rw [if_pos h] at hp
    obtain ⟨q, hq, hqp⟩ := List.mem_map.mp hp
    by_cases hqk : q.1 = k
    · rw [if_pos (by simpa using hqk)] at hqp
      exact hqp ▸ hkv
    · rw [if_neg (by simpa using hqk)] at hqp
      exact hqp ▸ hm q hq
  · rw [if_neg h] at hp
    rcases List.mem_append.mp hp with hp | hp
    · exact hm p hp
    · have : p = (k, v) := by simpa using hp
      exact this ▸ hkv

theorem parseAssetsGo_keys (files : List (String × String)) (bp : String) :
    ∀ (rest : List EpubManifestItem) (acc : List (String × String)) (x : String),
      x ∈ (parseAssetsGo files bp rest acc).map Prod.fst ↔
      x ∈ acc.map Prod.fst ∨
      ∃ item, item ∈ rest ∧ jTemplate item.href = x ∧
        isChapterMedia item.mediaType = false ∧
        lookupFile files (joinBase bp x) ≠ none := by
  intro rest
  induction rest with
  | nil =>
    intro acc x
    simp [parseAssetsGo]
  | cons item rest ih =>
    intro acc x
    by_cases hmed : isChapterMedia item.mediaType
    · have hstep : parseAssetsGo files bp (item :: rest) acc =
          parseAssetsGo files bp rest acc := by
        simp [parseAssetsGo, hmed]
      rw [hstep, ih]
      constructor
      · rintro (hacc | ⟨it, hit, h1, h2, h3⟩)
        · exact Or.inl hacc
        · exact Or.inr ⟨it, List.mem_cons_of_mem item hit, h1, h2, h3⟩
      · rintro (hacc | ⟨it, hit, h1, h2, h3⟩)
        · exact Or.inl hacc
        · rcases List.mem_cons.mp hit with rfl | hit
          · exact absurd hmed (by simp [h2])
          · exact Or.inr ⟨it, hit, h1, h2, h3⟩
    · have hmed' : isChapterMedia item.mediaType = false := by simpa using hmed
      cases hlook : lookupFile files (joinBase bp (jTemplate item.href)) with
      | none =>
        have hstep : parseAssetsGo files bp (item :: rest) acc =
            parseAssetsGo files bp rest acc := by
          simp [parseAssetsGo, hmed', hlook]
        rw [hstep, ih]
        constructor
        · rintro (hacc | ⟨it, hit, h1, h2, h3⟩)
          · exact Or.inl hacc
          · exact Or.inr ⟨it, List.mem_cons_of_mem item hit, h1, h2, h3⟩
        · rintro (hacc | ⟨it, hit, h1, h2, h3⟩)
          · exact Or.inl hacc
          · rcases List.mem_cons.mp hit with rfl | hit
            · exact absurd h3 (by rw [h1] at hlook; simp [hlook])
            · exact Or.inr ⟨it, hit, h1, h2, h3⟩
      | some assetData =>
        have hstep : parseAssetsGo files bp (item :: rest) acc =
            parseAssetsGo files bp rest
              (recordSet acc (jTemplate item.href) assetData) := by
          simp [parseAssetsGo, hmed', hlook]
        rw [hstep, ih]
        rw [recordSet_keys]
        constructor
        · rintro ((hacc | rfl) | ⟨it, hit, h1, h2, h3⟩)
          · exact Or.inl hacc
          · exact Or.inr ⟨item, List.mem_cons_self item rest, rfl, hmed',
              by simp [hlook]⟩
          · exact Or.inr ⟨it, List.mem_cons_of_mem item hit, h1, h2, h3⟩
        · rintro (hacc | ⟨it, hit, h1, h2, h3⟩)
          · exact Or.inl (Or.inl hacc)
          · rcases List.mem_cons.mp hit with rfl | hit
            · exact Or.inl (Or.inr h1.symm)
            · exact Or.inr ⟨it, hit, h1, h2, h3⟩

theorem parseAssetsGo_values (files : List (String × String)) (bp : String) :
    ∀ (rest : List EpubManifestItem) (acc : List (String × String)),
      (∀ p ∈ acc, lookupFile files (joinBase bp p.1) = some p.2) →
      ∀ p ∈ parseAssetsGo files bp rest acc,
        lookupFile files (joinBase bp p.1) = some p.2 := by
  intro rest
  induction rest with
  | nil =>
    intro acc hacc p hp
    simp only [parseAssetsGo] at hp
    exact hacc p hp
  | cons item rest ih =>
    intro acc hacc p hp
    by_cases hmed : isChapterMedia item.mediaType
    · rw [show parseAssetsGo files bp (item :: rest) acc =
          parseAssetsGo files bp rest acc by simp [parseAssetsGo, hmed]] at hp
      exact ih acc hacc p hp
    · have hmed' : isChapterMedia item.mediaType = false := by simpa using hmed
      cases hlook : lookupFile files (joinBase bp (jTemplate item.href)) with
      | none =>
        rw [show parseAssetsGo files bp (item :: rest) acc =
            parseAssetsGo files bp rest acc by simp [parseAssetsGo, hmed', hlook]] at hp
        exact ih acc hacc p hp
      | some assetData =>
        rw [show parseAssetsGo files bp (item :: rest) acc =
            parseAssetsGo files bp rest
              (recordSet acc (jTemplate item.href) assetData) by
          simp [parseAssetsGo, hmed', hlook]] at hp
        refine ih _ ?_ p hp
        exact recordSet_values acc _ assetData _ hacc (by simpa using hlook)

/-! ## Concrete fixtures used by witnesses and counterexamples -/

/-- An XML-parse stub returning an empty object for every document (title
extraction then yields `undefined`; word counting never consults the
parser). -/
def xpTriv : String → Except JsErr JVal := fun _ => .ok (.obj [])

/-- An XML-parse stub that throws on the malformed document `"<p>bad"` and
returns an empty object otherwise, mirroring fast-xml-parser's behaviour
of throwing on unclosed tags. -/
def xpFail : String → Except JsErr JVal := fun s =>
  if s = "<p>bad" then .error (.parseError "Invalid Tag") else .ok (.obj [])

def demoManifest : List EpubManifestItem :=
  [{ id := .str "c1", href := .str "ch1.xhtml",
     mediaType := .str "application/xhtml+xml", properties := [],
     isNavigation := false, isCoverImage := false }]

def demoFiles : List (String × String) :=
  [("ch1.xhtml", "<body>Hello world</body>")]

def demoManifest2 : List EpubManifestItem :=
  [{ id := .str "a", href := .str "a.xhtml",
     mediaType := .str "application/xhtml+xml", properties := [],
     isNavigation := false, isCoverImage := false },
   { id := .str "c1", href := .str "ch1.xhtml",
     mediaType := .str "application/xhtml+xml", properties := [],
     isNavigation := false, isCoverImage := false }]

def demoFiles2 : List (String × String) :=
  [("a.xhtml", "<p>bad"), ("ch1.xhtml", "<body>Hello world</body>")]

/-! ## Claim C1 -/

/-- C1, counterexample: an archive whose spine references the unknown
manifest id "ghost" does NOT make ingestion fail with any error —
`parseChapters` returns a successful (`.ok`) result, merely skipping the
dangling entry and still processing the following spine entry.  No
`InvalidPackageError` (or any error) is raised, eagerly or otherwise;
indeed no such error class exists in the source. -/
theorem C1_counterexample :
    parseChapters xpTriv
      [{ idref := .str "ghost", linear := true },
       { idref := .str "c1", linear := true }]
      demoManifest "" demoFiles =
      .ok [{ title := JVal.undef, wordCount := 2, chapterNumber := 2,
             href := .str "ch1.xhtml",
             htmlContent := "<body>Hello world</body>", spineIndex := 1 }] := rfl

/-- C1 (amended): a spine entry whose `idref` matches no manifest item id
is skipped with a console warning and processing continues with the
remaining entries at the next index; ingestion does not fail (the source
raises no error for dangling spine references). -/
theorem C1_dangling_idref_skipped
    (xmlParse : String → Except JsErr JVal) (manifest : List EpubManifestItem)
    (bp : String) (files : List (String × String)) (s : EpubSpineItem)
    (rest : List EpubSpineItem) (i : Nat)
    (h : manifest.find? (fun it => jsStrictEq it.id s.idref) = none) :
    parseChaptersGo xmlParse manifest bp files (s :: rest) i =
      parseChaptersGo xmlParse manifest bp files rest (i + 1) ∧
    parseChapters xmlParse (s :: rest) manifest bp files =
      parseChaptersGo xmlParse manifest bp files rest 1 := by
  constructor
  · simp [parseChaptersGo, h]
  · simp [parseChapters, parseChaptersGo, h]

/-- C1 witness. -/
theorem C1_witness :
    parseChaptersGo xpTriv demoManifest "" demoFiles
      [{ idref := .str "ghost", linear := true }] 0 =
      parseChaptersGo xpTriv demoManifest "" demoFiles [] 1 :=
  (C1_dangling_idref_skipped xpTriv demoManifest "" demoFiles
    { idref := .str "ghost", linear := true } [] 0 rfl).1

/-! ## Claim C2 -/

/-- C2, counterexample: a chapter whose markup fails to parse does NOT get
skipped: with a two-entry spine whose first chapter file holds malformed
markup (the parse throws) and whose second chapter is fine,
`parseChapters` returns an error — the per-chapter failure surfaces as an
ingestion-level error instead of a chapter list shorter than the spine
(there is no try/catch around `parseChapterData`). -/
theorem C2_counterexample :
    parseChapters xpFail
      [{ idref := .str "a", linear := true },
       { idref := .str "c1", linear := true }]
      demoManifest2 "" demoFiles2 =
      .error (.parseError "Invalid Tag") := rfl

/-- C2 (amended): a spine entry whose chapter file is missing (or decodes
to the empty string) is skipped and extraction continues with the
remaining entries, but a chapter whose markup parsing throws aborts
`parseChapters` with that error: the exception propagates as an
ingestion-level failure rather than shortening the chapter list. -/
theorem C2_missing_skipped_malformed_aborts
    (xmlParse : String → Except JsErr JVal) (manifest : List EpubManifestItem)
    (bp : String) (files : List (String × String)) (s : EpubSpineItem)
    (rest : List EpubSpineItem) (i : Nat) (mi : EpubManifestItem)
    (hfind : manifest.find? (fun it => jsStrictEq it.id s.idref) = some mi) :
    ((lookupFile files (joinBase bp (jTemplate mi.href))).getD "" = "" →
      parseChaptersGo xmlParse manifest bp files (s :: rest) i =
        parseChaptersGo xmlParse manifest bp files rest (i + 1)) ∧
    (∀ e : JsErr,
      (lookupFile files (joinBase bp (jTemplate mi.href))).getD "" ≠ "" →
      xmlParse ((lookupFile files (joinBase bp (jTemplate mi.href))).getD "") =
        .error e →
      parseChaptersGo xmlParse manifest bp files (s :: rest) i = .error e) := by
  constructor
  · intro hempty
    simp only [parseChaptersGo, hfind]
    rw [if_pos hempty]
  · intro e hne hparse
    simp only [parseChaptersGo, hfind]
    rw [if_neg hne]
    unfold parseChapterData
    rw [hparse]

/-- C2 witness. -/
theorem C2_witness :
    parseChaptersGo xpFail demoManifest2 "" demoFiles2
      [{ idref := .str "a", linear := true }] 0 =
      .error (.parseError "Invalid Tag") :=
  (C2_missing_skipped_malformed_aborts xpFail demoManifest2 "" demoFiles2
      { idref := .str "a", linear := true } [] 0
      { id := .str "a", href := .str "a.xhtml",
        mediaType := .str "application/xhtml+xml", properties := [],
        isNavigation := false, isCoverImage := false } rfl).2
    (.parseError "Invalid Tag") (by decide) rfl

/-! ## Claim C3 -/

/-- C3, counterexample: ingestion of an archive whose (otherwise valid)
package document has a spine with no `itemref` entries does NOT succeed:
`extractSpine` wraps the missing `itemref` as `[undefined]` and then reads
`.idref` of `undefined`, throwing a TypeError that aborts ingestion
before any chapter or cover processing. -/
theorem C3_counterexample :
    extractSpine (.obj [("toc", .str "ncx")]) =
      .error (.typeError "Cannot read properties of undefined (reading idref)") := rfl

/-- C3 (amended): given an already-empty spine list, the downstream stages
do behave as the claim says — `parseChapters` yields `[]` and cover
resolution yields null — but an archive whose spine element has no
`itemref` entries never produces that empty list: `extractSpine` throws a
TypeError on any spine node without an `itemref` field, so ingestion
fails rather than succeeding with empty aggregates. -/
theorem C3_empty_spine
    (xmlParse : String → Except JsErr JVal) (manifest : List EpubManifestItem)
    (bp : String) (files : List (String × String)) (spineNode : JVal)
    (hnode : spineNode ≠ JVal.undef)
    (hitemref : spineNode.get "itemref" = JVal.undef) :
    parseChapters xmlParse [] manifest bp files = .ok [] ∧
    uploadCoverImage xmlParse files [] manifest bp = none ∧
    extractSpine spineNode =
      .error (.typeError "Cannot read properties of undefined (reading idref)") := by
  refine ⟨rfl, rfl, ?_⟩
  unfold extractSpine
  have hget : spineNode.getE "itemref" = .ok JVal.undef := by
    cases spineNode with
    | undef => exact absurd rfl hnode
    | str s => simp [JVal.getE, hitemref]
    | arr l => simp [JVal.getE, hitemref]
    | obj l => simp [JVal.getE, hitemref]
  rw [hget]
  rfl

/-- C3 witness. -/
theorem C3_witness :
    parseChapters xpTriv [] demoManifest "" demoFiles = .ok [] ∧
    uploadCoverImage xpTriv demoFiles [] demoManifest "" = none ∧
    extractSpine (.obj [("toc", .str "ncx")]) =
      .error (.typeError "Cannot read properties of undefined (reading idref)") :=
  C3_empty_spine xpTriv demoManifest "" demoFiles (.obj [("toc", .str "ncx")])
    (by simp) rfl

/-! ## Claim C4 -/

/-- C4, counterexample: the same single title text "A" produces different
canonical fields depending on raw shape — as a bare string it yields
title "A", but as a repeated list (even a one-element one, the shape
fast-xml-parser produces for a repeated element) `getDcText` finds no
`_text` on the array and the title silently falls back to "Untitled".
The normalizer therefore does not accept a repeated list for the scalar
elements. -/
theorem C4_counterexample :
    (extractMetadata (.obj [("dc:title", .arr [.str "A"])]) "3.0").title =
      .str "Untitled" ∧
    (extractMetadata (.obj [("dc:title", .str "A")]) "3.0").title = .str "A" :=
  ⟨rfl, rfl⟩

/-- C4 (amended): the normalizer accepts bare-string and structured
(text in the `_text` key, or the `_` fallback) shapes for every element,
and single-versus-repeated shapes only for the multi-valued elements
(creators, subjects); a repeated list fed to a scalar element (title,
publisher, language, identifier, description, date, rights) yields the
absent value instead of that element's text.  `author` is the first
creator whose extracted text is truthy (`authors[0]` of the filtered
list), `undefined` when there is none. -/
theorem C4_shape_tolerance :
    (∀ s : String, s ≠ "" →
      getDcText (.str s) = .str s ∧
      getDcText (.obj [("_text", .str s)]) = .str s ∧
      getDcText (.obj [("_", .str s)]) = .str s) ∧
    (∀ elems : List JVal, getDcText (.arr elems) = JVal.undef) ∧
    (∀ v : JVal, (∀ elems : List JVal, v ≠ .arr elems) →
      getAuthors (.arr [v]) = getAuthors v) ∧
    (∀ v : JVal, (∀ elems : List JVal, v ≠ .arr elems) →
      subjectsOf (.arr [v]) = subjectsOf v) ∧
    (∀ (node : JVal) (ver : String),
      (extractMetadata node ver).author =
        (getAuthors (node.get "dc:creator")).headD JVal.undef) := by
  refine ⟨?_, ?_, ?_, ?_, ?_⟩
  · intro s hs
    have hbeq : (s == "") = false := by
      exact beq_eq_false_iff_ne.mpr hs
    refine ⟨?_, ?_, ?_⟩
    · simp [getDcText, JVal.truthy, hbeq]
    · simp [getDcText, JVal.truthy, JVal.get, jOr, hbeq]
    · simp [getDcText, JVal.truthy, JVal.get, jOr, hbeq]
  · intro elems
    rfl
  · intro v hv
    cases v with
    | undef => rfl
    | str s =>
      by_cases h : s = ""
      · subst h; rfl
      · have hbeq : (s == "") = false := beq_eq_false_iff_ne.mpr h
        simp [getAuthors, toJsArray, JVal.truthy, hbeq, getDcText]
    | arr l => exact absurd rfl (hv l)
    | obj l => rfl
  · intro v hv
    cases v with
    | undef => rfl
    | str s =>
      by_cases h : s = ""
      · subst h; rfl
      · have hbeq : (s == "") = false := beq_eq_false_iff_ne.mpr h
        simp [subjectsOf, JVal.truthy, hbeq, getDcText]
    | arr l => exact absurd rfl (hv l)
    | obj l =>
      show (([getDcText (JVal.obj l)].filter (fun s => s.truthy)).filter
          (fun s => JVal.truthy s)) =
        ([getDcText (JVal.obj l)].filter (fun s => JVal.truthy s))
      by_cases htr : (getDcText (JVal.obj l)).truthy
      · simp [List.filter, htr]
      · simp [List.filter, htr]
  · intro node ver
    rfl

/-- C4 witness. -/
theorem C4_witness :
    getDcText (.str "Jane") = .str "Jane" ∧
    getDcText (.obj [("_text", .str "Jane")]) = .str "Jane" ∧
    getDcText (.obj [("_", .str "Jane")]) = .str "Jane" :=
  C4_shape_tolerance.1 "Jane" (by decide)

/-! ## Claim C5 -/

/-- C5, counterexample: word counting is not always strictly from the body
region.  In this document the body region exists and is empty (the regex
captures `""`), yet `wordCount` is 2, counting the `<head>` title text
"Alpha Beta": the falsy empty capture makes `bodyMatch?.[1] ||
htmlContent` fall back to the whole document.  Under the claim the count
would be 0. -/
theorem C5_counterexample :
    extractBody "<html><head><title>Alpha Beta</title></head><body></body></html>".data =
      some [] ∧
    wordCount "<html><head><title>Alpha Beta</title></head><body></body></html>".data =
      2 := by
  constructor
  · decide
  · decide

/-- C5 (amended): when the body regex matches with a non-empty capture,
`wordCount` is computed exactly from that captured body region — strip
tags, collapse whitespace, trim, split, count non-empty tokens, which
equals the number of maximal non-whitespace runs of the tag-stripped
capture; when the match fails or captures the empty string, the whole
document (head included) is counted instead.  The two example paragraphs
yield `wordCount = 15`. -/
theorem C5_wordCount_from_body
    (html b : List Char) :
    (extractBody html = some b → b ≠ [] →
      wordCount html = (wsTokens (stripTags b)).length) ∧
    (extractBody html = none →
      wordCount html = (wsTokens (stripTags html)).length) ∧
    (extractBody html = some [] →
      wordCount html = (wsTokens (stripTags html)).length) ∧
    wordCount "<html><body><p>This chapter has multiple paragraphs with words.</p><p>Here is another paragraph to increase word count.</p></body></html>".data =
      15 := by
  refine ⟨?_, ?_, ?_, by decide⟩
  · intro hb hne
    rw [wordCount_eq_wsTokens_length, bodyContentOf, hb]
    dsimp only
    rw [if_neg hne]
  · intro hb
    rw [wordCount_eq_wsTokens_length, bodyContentOf, hb]
  · intro hb
    rw [wordCount_eq_wsTokens_length, bodyContentOf, hb]
    simp

/-- C5 witness. -/
theorem C5_witness :
    wordCount "<body>This is a test chapter.</body>".data =
      (wsTokens (stripTags "This is a test chapter.".data)).length :=
  (C5_wordCount_from_body "<body>This is a test chapter.</body>".data
    "This is a test chapter.".data).1 (by decide) (by decide)

/-! ## Claim C10 -/

/-- C10: word counting is invariant under whitespace formatting: any two
documents whose selected body content has, after tag stripping, the same
maximal non-whitespace runs (in particular, identical body text up to
whitespace runs and indentation) get identical `wordCount`. -/
theorem C10_wordCount_ws_invariant
    (d1 d2 : List Char)
    (h : wsTokens (stripTags (bodyContentOf d1)) =
      wsTokens (stripTags (bodyContentOf d2))) :
    wordCount d1 = wordCount d2 := by
  rw [wordCount_eq_wsTokens_length, wordCount_eq_wsTokens_length, h]

/-- C10 witness: the same body text with collapsed spaces, a newline and
indentation, and leading/trailing blanks. -/
theorem C10_witness :
    wordCount "<body>hello   world</body>".data =
      wordCount "<body>  hello\n  world </body>".data :=
  C10_wordCount_ws_invariant "<body>hello   world</body>".data
    "<body>  hello\n  world </body>".data (by decide)

/-! ## Claim C6 -/

/-- C6: for every archive, the chapter list emitted by a successful run of
`parseChapters` has at most one chapter per spine entry
(`length ≤ spine.length`); every chapter's `spineIndex` lies in
`[0, spine.length)`, the indices are strictly increasing (hence unique),
`chapterNumber = spineIndex + 1`, and each chapter's `spineIndex` is its
spine position: the spine entry at that index resolves through the
manifest to the chapter's `href`. -/
theorem C6_chapter_list_invariants
    (xmlParse : String → Except JsErr JVal) (spine : List EpubSpineItem)
    (manifest : List EpubManifestItem) (bp : String)
    (files : List (String × String)) (l : List NewChapter)
    (h : parseChapters xmlParse spine manifest bp files = .ok l) :
    l.length ≤ spine.length ∧
    (∀ c ∈ l, c.spineIndex < spine.length ∧
      c.chapterNumber = c.spineIndex + 1 ∧
      (∃ se mi, spine.get? c.spineIndex = some se ∧
        manifest.find? (fun it => jsStrictEq it.id se.idref) = some mi ∧
        c.href = mi.href)) ∧
    List.Pairwise (fun a b => a.spineIndex < b.spineIndex) l := by
  obtain ⟨h1, h2, h3⟩ :=
    parseChaptersGo_spec xmlParse manifest bp files spine 0 l h
  refine ⟨h1, ?_, h3⟩
  intro c hc
  obtain ⟨_, hhi, hnum, se, mi, hget, hfind, hhref⟩ := h2 c hc
  exact ⟨by simpa using hhi, hnum, se, mi, by simpa using hget, hfind, hhref⟩

/-- The spine of the witness archive: a dangling entry followed by a
resolvable one. -/
def demoSpine2 : List EpubSpineItem :=
  [{ idref := .str "ghost", linear := true },
   { idref := .str "c1", linear := true }]

/-- The chapter list `parseChapters` produces for `demoSpine2`. -/
def demoChapterList : List NewChapter :=
  [{ title := JVal.undef, wordCount := 2, chapterNumber := 2,
     href := .str "ch1.xhtml", htmlContent := "<body>Hello world</body>",
     spineIndex := 1 }]

/-- C6 witness: a two-entry spine whose first entry dangles yields one
chapter, at spine position 1 with chapter number 2. -/
theorem C6_witness :
    demoChapterList.length ≤ 2 ∧
    (∀ c ∈ demoChapterList,
      c.spineIndex < 2 ∧ c.chapterNumber = c.spineIndex + 1 ∧
      (∃ se mi, demoSpine2.get? c.spineIndex = some se ∧
        demoManifest.find? (fun it => jsStrictEq it.id se.idref) = some mi ∧
        c.href = mi.href)) ∧
    List.Pairwise (fun a b => a.spineIndex < b.spineIndex) demoChapterList := by
  have h := C6_chapter_list_invariants xpTriv demoSpine2
    demoManifest "" demoFiles demoChapterList rfl
  simpa [demoSpine2] using h

/-! ## Claim C9 -/

/-- C9: the normalized title is the literal "Untitled" whenever the
`dc:title` element is absent, or its (parser-trimmed, so empty after
trimming) text is the empty string, or it is a structured element with no
truthy `_text`/`_` content; and the normalized title is never the empty
string.  (fast-xml-parser is configured with trimValues: true, so a
whitespace-only source title reaches the normalizer as `""`.) -/
theorem C9_title_untitled_default (node : JVal) (ver : String) :
    (node.get "dc:title" = JVal.undef →
      (extractMetadata node ver).title = .str "Untitled") ∧
    (node.get "dc:title" = .str "" →
      (extractMetadata node ver).title = .str "Untitled") ∧
    (∀ fields : List (String × JVal),
      node.get "dc:title" = .obj fields →
      ((JVal.obj fields).get "_text").truthy = false →
      ((JVal.obj fields).get "_").truthy = false →
      (extractMetadata node ver).title = .str "Untitled") ∧
    (extractMetadata node ver).title ≠ .str "" := by
  have htitle : (extractMetadata node ver).title =
      jOr (getDcText (node.get "dc:title")) (.str "Untitled") := rfl
  refine ⟨?_, ?_, ?_, ?_⟩
  · intro h
    rw [htitle, h]
    rfl
  · intro h
    rw [htitle, h]
    rfl
  · intro fields h h1 h2
    rw [htitle, h]
    have hdc : getDcText (.obj fields) = JVal.undef := by
      simp [getDcText, jOr, h1, h2]
    rw [hdc]
    rfl
  · rw [htitle, jOr]
    by_cases h : (getDcText (node.get "dc:title")).truthy
    · rw [if_pos h]
      intro hcontra
      rw [hcontra] at h
      simp [JVal.truthy] at h
    · rw [if_neg h]
      intro hcontra
      simp at hcontra

/-- C9 witness. -/
theorem C9_witness :
    (extractMetadata (.obj [("dc:creator", .str "X")]) "2.0").title =
      .str "Untitled" ∧
    (extractMetadata (.obj [("dc:title", .str "")]) "2.0").title =
      .str "Untitled" ∧
    (extractMetadata (.obj [("dc:title", .obj [("id", .str "t1")])]) "2.0").title =
      .str "Untitled" :=
  ⟨(C9_title_untitled_default (.obj [("dc:creator", .str "X")]) "2.0").1 rfl,
   (C9_title_untitled_default (.obj [("dc:title", .str "")]) "2.0").2.1 rfl,
   (C9_title_untitled_default (.obj [("dc:title", .obj [("id", .str "t1")])]) "2.0").2.2.1
     [("id", .str "t1")] rfl rfl rfl⟩

/-! ## Claim C7 -/

/-- The parsed tree of the scenario's first-spine-chapter markup,
`<html><body><p><img src="images/cover.jpg" alt="cover"/></p></body></html>`,
as fast-xml-parser produces it. -/
def coverTree : JVal :=
  .obj [("html", .obj [("body", .obj [("p", .obj [("img",
    .obj [("src", .str "images/cover.jpg"), ("alt", .str "cover")])])])])]

/-- Parse stub returning `coverTree` for the scenario document. -/
def xpCover : String → Except JsErr JVal := fun s =>
  if s = "<html><body><p><img src=\"images/cover.jpg\" alt=\"cover\"/></p></body></html>"
  then .ok coverTree
  else .error (.parseError "unexpected document")

def coverSpine : List EpubSpineItem := [{ idref := .str "id001", linear := true }]

def coverManifest1 : List EpubManifestItem :=
  [{ id := .str "id001", href := .str "001.html",
     mediaType := .str "application/xhtml+xml", properties := [],
     isNavigation := false, isCoverImage := false }]

def coverFiles1 : List (String × String) :=
  [("Ops/001.html",
    "<html><body><p><img src=\"images/cover.jpg\" alt=\"cover\"/></p></body></html>"),
   ("Ops/images/cover.jpg", "JPGBYTES")]

def coverManifest2 : List EpubManifestItem :=
  [{ id := .str "id001", href := .str "text/001.html",
     mediaType := .str "application/xhtml+xml", properties := [],
     isNavigation := false, isCoverImage := false }]

/-- Both candidate resolutions exist with different bytes: relative to the
chapter's own directory (`Ops/text/`) and relative to the package base
path (`Ops/`). -/
def coverFiles2 : List (String × String) :=
  [("Ops/text/001.html",
    "<html><body><p><img src=\"images/cover.jpg\" alt=\"cover\"/></p></body></html>"),
   ("Ops/images/cover.jpg", "WRONGBYTES"),
   ("Ops/text/images/cover.jpg", "RIGHTBYTES")]

/-- C7: cover resolution inspects only the first spine entry: on the
spec's scenario it returns the bytes at `Ops/images/cover.jpg` with
extension ".jpg"; the image reference is resolved against the directory
of the chapter file, not the package base path (second scenario: with the
chapter at `Ops/text/001.html` and candidate images in both directories,
the chapter-relative one is returned); and it returns null — never an
exception — when the chapter file is missing, when the tree search finds
no image reference, when the resolved image bytes are absent, or when
markup parsing throws. -/
theorem C7_cover_resolution :
    uploadCoverImage xpCover coverFiles1 coverSpine coverManifest1 "Ops" =
      some ("JPGBYTES", ".jpg") ∧
    uploadCoverImage xpCover coverFiles2 coverSpine coverManifest2 "Ops" =
      some ("RIGHTBYTES", ".jpg") ∧
    (∀ (xp : String → Except JsErr JVal) (files : List (String × String))
       (s0 : EpubSpineItem) (rest : List EpubSpineItem)
       (manifest : List EpubManifestItem) (bp : String) (mi : EpubManifestItem),
      manifest.find? (fun it => jsStrictEq it.id s0.idref) = some mi →
      lookupFile files (joinBase bp (jTemplate mi.href)) = none →
      uploadCoverImage xp files (s0 :: rest) manifest bp = none) ∧
    (∀ (xp : String → Except JsErr JVal) (files : List (String × String))
       (s0 : EpubSpineItem) (rest : List EpubSpineItem)
       (manifest : List EpubManifestItem) (bp : String) (mi : EpubManifestItem)
       (content : String) (t : JVal),
      manifest.find? (fun it => jsStrictEq it.id s0.idref) = some mi →
      lookupFile files (joinBase bp (jTemplate mi.href)) = some content →
      xp content = .ok t →
      findFirstImage t = .ok none →
      uploadCoverImage xp files (s0 :: rest) manifest bp = none) ∧
    (∀ (xp : String → Except JsErr JVal) (files : List (String × String))
       (s0 : EpubSpineItem) (rest : List EpubSpineItem)
       (manifest : List EpubManifestItem) (bp : String) (mi : EpubManifestItem)
       (content : String) (t src : JVal),
      manifest.find? (fun it => jsStrictEq it.id s0.idref) = some mi →
      lookupFile files (joinBase bp (jTemplate mi.href)) = some content →
      xp content = .ok t →
      findFirstImage t = .ok (some src) →
      lookupFile files
        (if dirOf (joinBase bp (jTemplate mi.href)) == "" then jTemplate src
         else dirOf (joinBase bp (jTemplate mi.href)) ++ "/" ++ jTemplate src) =
        none →
      uploadCoverImage xp files (s0 :: rest) manifest bp = none) ∧
    (∀ (xp : String → Except JsErr JVal) (files : List (String × String))
       (s0 : EpubSpineItem) (rest : List EpubSpineItem)
       (manifest : List EpubManifestItem) (bp : String) (mi : EpubManifestItem)
       (content : String) (e : JsErr),
      manifest.find? (fun it => jsStrictEq it.id s0.idref) = some mi →
      lookupFile files (joinBase bp (jTemplate mi.href)) = some content →
      xp content = .error e →
      uploadCoverImage xp files (s0 :: rest) manifest bp = none) := by
  refine ⟨rfl, rfl, ?_, ?_, ?_, ?_⟩
  · intro xp files s0 rest manifest bp mi hfind hlook
    unfold uploadCoverImage uploadCoverImageE
    dsimp only
    rw [hfind]
    dsimp only
    rw [hlook]
  · intro xp files s0 rest manifest bp mi content t hfind hlook hxp hsearch
    unfold uploadCoverImage uploadCoverImageE
    dsimp only
    rw [hfind]
    dsimp only
    rw [hlook]
    dsimp only
    rw [hxp]
    dsimp only
    rw [hsearch]
  · intro xp files s0 rest manifest bp mi content t src hfind hlook hxp hsearch hilook
    unfold uploadCoverImage uploadCoverImageE
    dsimp only
    rw [hfind]
    dsimp only
    rw [hlook]
    dsimp only
    rw [hxp]
    dsimp only
    rw [hsearch]
    dsimp only
    rw [hilook]
  · intro xp files s0 rest manifest bp mi content e hfind hlook hxp
    unfold uploadCoverImage uploadCoverImageE
    dsimp only
    rw [hfind]
    dsimp only
    rw [hlook]
    dsimp only
    rw [hxp]

/-- C7 witness: the chapter file of the single spine entry is absent from
an empty archive, so cover resolution returns null. -/
theorem C7_witness :
    uploadCoverImage xpTriv [] coverSpine coverManifest1 "Ops" = none :=
  C7_cover_resolution.2.2.1 xpTriv [] { idref := .str "id001", linear := true } []
    coverManifest1 "Ops"
    { id := .str "id001", href := .str "001.html",
      mediaType := .str "application/xhtml+xml", properties := [],
      isNavigation := false, isCoverImage := false } rfl rfl

/-! ## Claim C8 -/

/-- C8: the asset map built by `parseAssets` has an entry for a key `x`
exactly when some manifest item has href `x`, a media-type other than the
two chapter-markup content types, and its `opfBasePath`-resolved archive
path present in the archive (a missing file is skipped without error);
the key is the manifest-declared href, and the stored bytes are the ones
at the resolved path (so chapter-markup items never contribute an
entry). -/
theorem C8_asset_map (files : List (String × String))
    (manifest : List EpubManifestItem) (bp : String) (x : String) :
    (x ∈ (parseAssets files manifest bp).map Prod.fst ↔
      ∃ item, item ∈ manifest ∧ jTemplate item.href = x ∧
        isChapterMedia item.mediaType = false ∧
        lookupFile files (joinBase bp x) ≠ none) ∧
    (∀ p ∈ parseAssets files manifest bp,
      lookupFile files (joinBase bp p.1) = some p.2) := by
  constructor
  · rw [parseAssets, parseAssetsGo_keys]
    simp
  · intro p hp
    exact parseAssetsGo_values files bp manifest [] (by simp) p hp

def assetManifest : List EpubManifestItem :=
  [{ id := .str "c1", href := .str "ch1.xhtml",
     mediaType := .str "application/xhtml+xml", properties := [],
     isNavigation := false, isCoverImage := false },
   { id := .str "img1", href := .str "images/cover.jpg",
     mediaType := .str "image/jpeg", properties := [],
     isNavigation := false, isCoverImage := false }]

def assetFiles : List (String × String) :=
  [("OEBPS/ch1.xhtml", "CHAPTER"), ("OEBPS/images/cover.jpg", "IMGBYTES")]

/-- C8 witness: the declared image href keys the asset map of the sample
archive. -/
theorem C8_witness :
    "images/cover.jpg" ∈ (parseAssets assetFiles assetManifest "OEBPS").map Prod.fst :=
  (C8_asset_map assetFiles assetManifest "OEBPS" "images/cover.jpg").1.mpr
    ⟨{ id := .str "img1", href := .str "images/cover.jpg",
       mediaType := .str "image/jpeg", properties := [],
       isNavigation := false, isCoverImage := false },
     by simp [assetManifest], rfl, rfl, by decide⟩
